import Mathlib

/-!
# lzip_index: a verification development

Shallow embedding of `src/lzip_index.c` (with the declarations of
`src/lzip_index.h`) and of the two loops of `src/lzip_indexer.c` that build and
list an index.

Conventions of the embedding:

* `uint64_t` and `size_t` values are natural numbers; every place where the C
  code can wrap around reduces modulo `UINT64_MOD = 2^64` explicitly.
* The C pair `(members, member_count)` is one Lean list: the allocated array
  and its length.  `members[i]` of the C code is position `i` of the list.
* A returned `struct lzip_index_member const *` is `Option Nat`: `none` is the
  null pointer, `some p` is the address `&index->members[p]`.  The address is
  formed without being dereferenced, so `p` may lie outside the array.
* The outcome of `realloc` is an explicit boolean argument of
  `lzip_index_prepend`.
-/

namespace LzipIndex

/-- Number of values of a `uint64_t` (and of `size_t` on the LP64 targets the
indexer is written for): `2^64`. -/
def UINT64_MOD : Nat := 18446744073709551616

/-- The record `struct lzip_index_member` of `lzip_index.h`. -/
structure lzip_index_member where
  data_offset : Nat
  data_size : Nat
  member_offset : Nat
  member_size : Nat
deriving DecidableEq, Repr

/-- The record `struct lzip_index` of `lzip_index.h`; `member_count` is the
length of `members`. -/
structure lzip_index where
  combined_data_size : Nat
  indexable_data_size : Nat
  members : List lzip_index_member
deriving DecidableEq, Repr

/-- The field `member_count` of `struct lzip_index`. -/
def member_count (index : lzip_index) : Nat := index.members.length

/-- The zero-initialised index, `struct lzip_index index = {}`. -/
def empty_index : lzip_index := ⟨0, 0, []⟩

/-- The function `lzip_index_prepend`.  `alloc_ok` is whether `realloc`
returned a non-null block.  On success the record is copied to
`members[member_count]` and `member_count` is incremented; the result is the
return code together with the index after the call. -/
def lzip_index_prepend (index : lzip_index) (member : lzip_index_member)
    (alloc_ok : Bool) : Nat × lzip_index :=
  if alloc_ok then
    (0, { index with members := index.members ++ [member] })
  else
    (1, index)

/-- The local state of the loop of `lzip_index_finalize`: the members array
and the two accumulators. -/
structure finalize_locals where
  members : List lzip_index_member
  combined_data_size : Nat
  indexable_data_size : Nat
deriving DecidableEq, Repr

/-- One iteration of the loop of `lzip_index_finalize`, for loop counter `j`
and `n = index->member_count`. -/
def finalize_body (n : Nat) (st : finalize_locals) (j : Nat) : finalize_locals :=
  let i := n - j - 1
  match st.members[i]? with
  | none => st
  | some member =>
    let members := st.members.set i { member with data_offset := st.combined_data_size }
    let combined := (st.combined_data_size + member.data_size) % UINT64_MOD
    if j = 0 then
      ⟨members, combined, member.data_size⟩
    else if i = 0 ∨ st.indexable_data_size = 0 then
      ⟨members, combined, st.indexable_data_size⟩
    else if member.data_size ≠ st.indexable_data_size then
      ⟨members, combined, 0⟩
    else
      ⟨members, combined, st.indexable_data_size⟩

/-- The first `k` iterations (`j = 0, ..., k-1`) of the loop of
`lzip_index_finalize` on an array of `n` members. -/
def finalize_loop (n k : Nat) (st : finalize_locals) : finalize_locals :=
  (List.range k).foldl (finalize_body n) st

/-- The function `lzip_index_finalize`. -/
def lzip_index_finalize (index : lzip_index) : lzip_index :=
  let st := finalize_loop (member_count index) (member_count index) ⟨index.members, 0, 0⟩
  { combined_data_size := st.combined_data_size
    indexable_data_size := st.indexable_data_size
    members := st.members }

/-- The static function `comparator` of `lzip_index.c`; the sum
`data_offset + data_size` is a `uint64_t` sum. -/
def comparator (key : Nat) (element : lzip_index_member) : Int :=
  if key < element.data_offset then 1
  else if key < (element.data_offset + element.data_size) % UINT64_MOD then 0
  else -1

/-- The loop of the C library function `bsearch` (as in glibc): the search
interval is `[l, u)`, the probe is `(l + u) / 2`, a negative comparison keeps
the left part and a positive one the right part.  `reads` collects the
positions handed to the comparison function.  Each iteration shrinks `u - l`,
so `fuel = u - l` iterations always suffice. -/
def bsearch_loop (compar : lzip_index_member → Int) (base : List lzip_index_member) :
    Nat → Nat → Nat → List Nat → Option Nat × List Nat
  | 0, _, _, reads => (none, reads)
  | fuel + 1, l, u, reads =>
    if l < u then
      let idx := (l + u) / 2
      match base[idx]? with
      | none => (none, reads)
      | some p =>
        let comparison := compar p
        if comparison < 0 then bsearch_loop compar base fuel l idx (reads ++ [idx])
        else if comparison > 0 then bsearch_loop compar base fuel (idx + 1) u (reads ++ [idx])
        else (some idx, reads ++ [idx])
    else (none, reads)

/-- The C library function `bsearch` on an array of `nmemb` elements. -/
def bsearch (compar : lzip_index_member → Int) (base : List lzip_index_member)
    (nmemb : Nat) : Option Nat × List Nat :=
  bsearch_loop compar base nmemb 0 nmemb []

/-- The function `lzip_index_search`, with the list of member positions it
reads.  The argument is `none` for a null `index`.  In the constant-time branch
`member_count - member_index` is a `size_t` subtraction and the address
`&index->members[...]` is returned without reading the array. -/
def lzip_index_search_traced (index : Option lzip_index) (data_offset : Nat) :
    Option Nat × List Nat :=
  match index with
  | none => (none, [])
  | some index =>
    if data_offset > index.combined_data_size then (none, [])
    else if index.indexable_data_size ≠ 0 then
      let member_index := data_offset / index.indexable_data_size
      (some ((member_count index + UINT64_MOD - member_index) % UINT64_MOD), [])
    else
      bsearch (comparator data_offset) index.members (member_count index)

/-- The pointer returned by `lzip_index_search`. -/
def lzip_index_search (index : Option lzip_index) (data_offset : Nat) : Option Nat :=
  (lzip_index_search_traced index data_offset).1

/-- The record a returned pointer designates, when it points into the array. -/
def pointee (index : lzip_index) (ptr : Option Nat) : Option lzip_index_member :=
  match ptr with
  | none => none
  | some p => index.members[p]?

/-- The function `lzip_index_destroy` (on a non-null index): the storage is
released and the structure is reset to the zero value. -/
def lzip_index_destroy (_index : lzip_index) : lzip_index := ⟨0, 0, []⟩

/-- The record built by the scan loop of `main` for one trailer: `data_offset`
is set to zero, the other fields are copied. -/
def scanned_member (t : Nat × Nat × Nat) : lzip_index_member :=
  ⟨0, t.1, t.2.1, t.2.2⟩

/-- The triple `(data_size, member_offset, member_size)` of a record. -/
def member_triple (m : lzip_index_member) : Nat × Nat × Nat :=
  (m.data_size, m.member_offset, m.member_size)

/-- Successive successful calls of `lzip_index_prepend`, in the order of the
list. -/
def prepend_all (index : lzip_index) (ms : List lzip_index_member) : lzip_index :=
  ms.foldl (fun acc m => (lzip_index_prepend acc m true).2) index

/-- The construction done by `main`: the records of the list are prepended to
the empty index one after the other, then the index is finalized. -/
def build_index (ms : List lzip_index_member) : lzip_index :=
  lzip_index_finalize (prepend_all empty_index ms)

/-- The listing loop of `main`: for `i = 0, ..., member_count - 1` the record at
`members[member_count - i - 1]` is printed. -/
def listing (index : lzip_index) : List lzip_index_member :=
  (List.range (member_count index)).filterMap
    (fun i => index.members[member_count index - i - 1]?)

/-- The sum of the `data_size` fields of a list of records, as a natural
number. -/
def data_size_sum (ms : List lzip_index_member) : Nat :=
  (ms.map (fun m => m.data_size)).sum

/-- Reference search following the specification's words: a linear scan over
all members that returns the first position whose record `m` satisfies
`m.data_offset <= offset < m.data_offset + m.data_size`, or nothing. -/
def linear_scan (index : lzip_index) (offset : Nat) : Option Nat :=
  index.members.findIdx?
    (fun m => decide (m.data_offset ≤ offset ∧ offset < m.data_offset + m.data_size))

/-- The records of the three-member scenario in the order they are prepended:
trailers `(100, 5000, 120)`, `(100, 3000, 120)`, `(100, 0, 120)`. -/
def scenario_uniform_records : List lzip_index_member :=
  [scanned_member (100, 5000, 120), scanned_member (100, 3000, 120),
    scanned_member (100, 0, 120)]

/-- The three-member scenario before `lzip_index_finalize`. -/
def scenario_uniform_raw : lzip_index := prepend_all empty_index scenario_uniform_records

/-- The three-member scenario: the three records prepended, then finalized. -/
def scenario_uniform : lzip_index := build_index scenario_uniform_records

/-- An index whose file order is `100, 100, 50`: the short record is the first
one prepended. -/
def scenario_short_tail : lzip_index :=
  build_index [scanned_member (50, 200, 70), scanned_member (100, 100, 100),
    scanned_member (100, 0, 100)]

/-- An index whose file order is `50, 100, 100`: the short record is the last
one prepended. -/
def scenario_short_head : lzip_index :=
  build_index [scanned_member (100, 170, 120), scanned_member (100, 70, 100),
    scanned_member (50, 0, 70)]

/-- An index whose first record in file order is empty: file order `0, 5`. -/
def scenario_empty_head : lzip_index :=
  build_index [scanned_member (5, 36, 41), scanned_member (0, 0, 36)]

/-- The two-member scenario: trailers `(200, 70, 220)` then `(50, 0, 70)`
prepended in this order (file order `(50, 0, 70)`, `(200, 70, 220)`), then
finalized. -/
def scenario_two_members : lzip_index :=
  build_index [scanned_member (200, 70, 220), scanned_member (50, 0, 70)]

/-- The index with file order `50, 100, 100` before `lzip_index_finalize`. -/
def scenario_short_head_raw : lzip_index :=
  prepend_all empty_index
    [scanned_member (100, 170, 120), scanned_member (100, 70, 100),
      scanned_member (50, 0, 70)]

/-- An index that holds one record, before a further call of
`lzip_index_prepend`. -/
def scenario_one_record : lzip_index := ⟨0, 0, [scanned_member (100, 5000, 120)]⟩

/-- Closed form of the records after `lzip_index_finalize`: every record gets
as `data_offset` the wrapped sum of the `data_size` fields stored after it. -/
def with_offsets : List lzip_index_member → List lzip_index_member
  | [] => []
  | m :: rest => { m with data_offset := data_size_sum rest % UINT64_MOD } :: with_offsets rest

/-- The `data_size` of the record stored last, zero for no record. -/
def last_data_size : List lzip_index_member → Nat
  | [] => 0
  | [m] => m.data_size
  | _ :: m :: rest => last_data_size (m :: rest)

/-- The value `c` when every record of the list has `data_size = c`, zero
otherwise. -/
def uniform_or_zero (c : Nat) (ms : List lzip_index_member) : Nat :=
  if ms.all (fun m => decide (m.data_size = c)) then c else 0

theorem finalize_loop_succ (n k : Nat) (st : finalize_locals) :
    finalize_loop n (k + 1) st = finalize_body n (finalize_loop n k st) k := by
  simp [finalize_loop, List.range_succ, List.foldl_append]

theorem finalize_body_at (pre suf : List lzip_index_member) (m : lzip_index_member)
    (c ind : Nat) :
    finalize_body (pre.length + (suf.length + 1)) ⟨pre ++ m :: suf, c, ind⟩ suf.length =
      ⟨pre ++ { m with data_offset := c } :: suf, (c + m.data_size) % UINT64_MOD,
        if suf.length = 0 then m.data_size
        else if pre.length = 0 ∨ ind = 0 then ind
        else if m.data_size ≠ ind then 0 else ind⟩ := by
  have hi : pre.length + (suf.length + 1) - suf.length - 1 = pre.length := by omega
  unfold finalize_body
  simp only [hi]
  have hget : (pre ++ m :: suf)[pre.length]? = some m := by
    rw [List.getElem?_append_right (le_refl _)]; simp
  rw [hget]
  have hset : (pre ++ m :: suf).set pre.length { m with data_offset := c } =
      pre ++ { m with data_offset := c } :: suf := by simp
  simp only [hset]
  split_ifs <;> rfl

theorem with_offsets_length (ms : List lzip_index_member) :
    (with_offsets ms).length = ms.length := by
  induction ms with
  | nil => rfl
  | cons m rest ih => simp [with_offsets, ih]

theorem data_size_sum_cons (m : lzip_index_member) (ms : List lzip_index_member) :
    data_size_sum (m :: ms) = m.data_size + data_size_sum ms := by
  simp [data_size_sum]

theorem last_data_size_cons (m : lzip_index_member) (ms : List lzip_index_member)
    (h : ms ≠ []) : last_data_size (m :: ms) = last_data_size ms := by
  cases ms with
  | nil => exact absurd rfl h
  | cons a rest => rfl

theorem uniform_or_zero_cons (c : Nat) (m : lzip_index_member)
    (ms : List lzip_index_member) :
    uniform_or_zero c (m :: ms) =
      if uniform_or_zero c ms = 0 then 0
      else if m.data_size ≠ uniform_or_zero c ms then 0 else uniform_or_zero c ms := by
  unfold uniform_or_zero
  by_cases hall : (ms.all fun x => decide (x.data_size = c)) = true
  · by_cases hc : c = 0
    · subst hc; simp
    · by_cases hm : m.data_size = c
      · simp [hall, hc, hm]
      · simp [hall, hc, hm]
  · simp [hall]

theorem finalize_loop_spec (suf pre : List lzip_index_member) :
    finalize_loop (pre.length + suf.length) suf.length ⟨pre ++ suf, 0, 0⟩ =
      ⟨pre ++ with_offsets suf, data_size_sum suf % UINT64_MOD,
        uniform_or_zero (last_data_size suf) (if pre.isEmpty then suf.tail else suf)⟩ := by
  induction suf generalizing pre with
  | nil => simp [finalize_loop, with_offsets, data_size_sum, uniform_or_zero, last_data_size]
  | cons m rest ih =>
    have ih1 := ih (pre ++ [m])
    have hn : (pre ++ [m]).length + rest.length = pre.length + (rest.length + 1) := by
      simp; omega
    rw [hn] at ih1
    have hst : (pre ++ [m]) ++ rest = pre ++ m :: rest := by simp
    rw [hst] at ih1
    rw [List.length_cons, finalize_loop_succ, ih1]
    have happ : (pre ++ [m]) ++ with_offsets rest = pre ++ m :: with_offsets rest := by simp
    rw [happ]
    have hbody := finalize_body_at pre (with_offsets rest) m (data_size_sum rest % UINT64_MOD)
      (uniform_or_zero (last_data_size rest)
        (if (pre ++ [m]).isEmpty then rest.tail else rest))
    rw [with_offsets_length] at hbody
    rw [hbody]
    have hne : (pre ++ [m]).isEmpty = false := by simp
    congr 1
    · rw [data_size_sum_cons, Nat.mod_add_mod, Nat.add_comm]
    · rw [hne]
      simp only [Bool.false_eq_true, if_false]
      cases rest with
      | nil =>
        cases pre <;> simp [uniform_or_zero, last_data_size]
      | cons r rest2 =>
        rw [last_data_size_cons m (r :: rest2) (by simp)]
        cases pre with
        | nil => simp
        | cons p pre2 =>
          simp only [List.length_cons, List.isEmpty_cons, Bool.false_eq_true, if_false]
          rw [uniform_or_zero_cons (last_data_size (r :: rest2)) m (r :: rest2)]
          by_cases hz : uniform_or_zero (last_data_size (r :: rest2)) (r :: rest2) = 0
          · simp [hz]
          · simp [hz]

theorem lzip_index_finalize_eq (index : lzip_index) :
    lzip_index_finalize index =
      ⟨data_size_sum index.members % UINT64_MOD,
        uniform_or_zero (last_data_size index.members) index.members.tail,
        with_offsets index.members⟩ := by
  have h := finalize_loop_spec index.members []
  simp only [List.length_nil, Nat.zero_add, List.nil_append, List.isEmpty_nil, if_true] at h
  simp [lzip_index_finalize, member_count, h]

theorem with_offsets_getElem? (ms : List lzip_index_member) (i : Nat) :
    (with_offsets ms)[i]? =
      (ms[i]?).map (fun m =>
        { m with data_offset := data_size_sum (ms.drop (i + 1)) % UINT64_MOD }) := by
  induction ms generalizing i with
  | nil => simp [with_offsets]
  | cons m rest ih =>
    cases i with
    | zero => simp [with_offsets]
    | succ k => simp [with_offsets, ih]

theorem with_offsets_map_triple (ms : List lzip_index_member) :
    (with_offsets ms).map member_triple = ms.map member_triple := by
  induction ms with
  | nil => rfl
  | cons m rest ih => simp [with_offsets, member_triple, ih]

theorem with_offsets_data_size_sum (ms : List lzip_index_member) :
    data_size_sum (with_offsets ms) = data_size_sum ms := by
  induction ms with
  | nil => rfl
  | cons m rest ih => simp [with_offsets, data_size_sum_cons, ih]

theorem with_offsets_drop (ms : List lzip_index_member) (k : Nat) :
    (with_offsets ms).drop k = with_offsets (ms.drop k) := by
  induction ms generalizing k with
  | nil => simp [with_offsets]
  | cons m rest ih =>
    cases k with
    | zero => simp
    | succ k => simp [with_offsets, ih]

theorem uniform_or_zero_ne_zero {c : Nat} {ms : List lzip_index_member}
    (h : uniform_or_zero c ms ≠ 0) :
    uniform_or_zero c ms = c ∧ ∀ m ∈ ms, m.data_size = c := by
  unfold uniform_or_zero at h ⊢
  by_cases hall : (ms.all fun x => decide (x.data_size = c)) = true
  · refine ⟨by simp [hall], ?_⟩
    intro m hm
    have := List.all_eq_true.mp hall m hm
    simpa using this
  · simp [hall] at h

theorem listing_eq_reverse_aux (l : List lzip_index_member) :
    (List.range l.length).filterMap (fun i => l[l.length - i - 1]?) = l.reverse := by
  induction l with
  | nil => rfl
  | cons a rest ih =>
    rw [List.length_cons, List.range_succ, List.filterMap_append, List.reverse_cons]
    congr 1
    · rw [← ih]
      apply List.filterMap_congr
      intro i hi
      have hi2 : i < rest.length := List.mem_range.mp hi
      have h1 : rest.length + 1 - i - 1 = (rest.length - i - 1) + 1 := by omega
      rw [h1, List.getElem?_cons_succ]
    · simp

theorem listing_eq_reverse (index : lzip_index) : listing index = index.members.reverse := by
  unfold listing member_count
  exact listing_eq_reverse_aux index.members

theorem prepend_all_members (index : lzip_index) (ms : List lzip_index_member) :
    (prepend_all index ms).members = index.members ++ ms := by
  induction ms generalizing index with
  | nil => simp [prepend_all]
  | cons m rest ih =>
    have h : prepend_all index (m :: rest) =
        prepend_all (lzip_index_prepend index m true).2 rest := rfl
    rw [h, ih]
    simp [lzip_index_prepend]

theorem finalize_members_getElem? (index : lzip_index) (i : Nat) :
    (lzip_index_finalize index).members[i]? =
      (index.members[i]?).map (fun m =>
        { m with data_offset := data_size_sum (index.members.drop (i + 1)) % UINT64_MOD }) := by
  rw [lzip_index_finalize_eq]
  exact with_offsets_getElem? index.members i

theorem finalize_member_count (index : lzip_index) :
    member_count (lzip_index_finalize index) = member_count index := by
  rw [lzip_index_finalize_eq]
  simp [member_count, with_offsets_length]

theorem finalize_indexable_core (index : lzip_index)
    (h : (lzip_index_finalize index).indexable_data_size ≠ 0) (i : Nat)
    (m : lzip_index_member) (hi : 1 ≤ i)
    (hm : (lzip_index_finalize index).members[i]? = some m) :
    m.data_size = (lzip_index_finalize index).indexable_data_size := by
  rw [finalize_members_getElem?] at hm
  rw [lzip_index_finalize_eq] at h ⊢
  simp only at h ⊢
  obtain ⟨hc, hall⟩ := uniform_or_zero_ne_zero h
  rw [hc]
  obtain ⟨m0, hm0, rfl⟩ := Option.map_eq_some'.mp hm
  simp only
  apply hall
  obtain ⟨k, rfl⟩ : ∃ k, i = k + 1 := ⟨i - 1, by omega⟩
  cases hms : index.members with
  | nil => rw [hms] at hm0; simp at hm0
  | cons a rest =>
    rw [hms] at hm0
    simp only [List.getElem?_cons_succ] at hm0
    exact List.getElem?_mem hm0

theorem bsearch_loop_succ (compar : lzip_index_member → Int)
    (base : List lzip_index_member) (fuel l u : Nat) (reads : List Nat) :
    bsearch_loop compar base (fuel + 1) l u reads =
      if l < u then
        match base[(l + u) / 2]? with
        | none => (none, reads)
        | some p =>
          if compar p < 0 then
            bsearch_loop compar base fuel l ((l + u) / 2) (reads ++ [(l + u) / 2])
          else if compar p > 0 then
            bsearch_loop compar base fuel ((l + u) / 2 + 1) u (reads ++ [(l + u) / 2])
          else (some ((l + u) / 2), reads ++ [(l + u) / 2])
      else (none, reads) := rfl

/-- More fuel than the width of the search interval does not change what the
loop of `bsearch` returns: the loop always ends by itself. -/
theorem bsearch_loop_fuel_succ (compar : lzip_index_member → Int)
    (base : List lzip_index_member) (fuel l u : Nat) (reads : List Nat)
    (h : u - l ≤ fuel) :
    bsearch_loop compar base (fuel + 1) l u reads = bsearch_loop compar base fuel l u reads := by
  induction fuel generalizing l u reads with
  | zero =>
    have hlu : ¬ l < u := by omega
    simp [bsearch_loop, hlu]
  | succ k ih =>
    rw [bsearch_loop_succ compar base (k + 1) l u reads, bsearch_loop_succ compar base k l u reads]
    by_cases hlu : l < u
    · simp only [hlu, if_true]
      cases hget : base[(l + u) / 2]? with
      | none => rfl
      | some p =>
        simp only
        have h1 : (l + u) / 2 - l ≤ k := by omega
        have h2 : u - ((l + u) / 2 + 1) ≤ k := by omega
        rw [ih l ((l + u) / 2) _ h1, ih ((l + u) / 2 + 1) u _ h2]
    · simp [hlu]

theorem bsearch_loop_fuel_add (compar : lzip_index_member → Int)
    (base : List lzip_index_member) (fuel l u extra : Nat) (reads : List Nat)
    (h : u - l ≤ fuel) :
    bsearch_loop compar base (fuel + extra) l u reads =
      bsearch_loop compar base fuel l u reads := by
  induction extra with
  | zero => rfl
  | succ e ih =>
    rw [← Nat.add_assoc, bsearch_loop_fuel_succ compar base (fuel + e) l u reads (by omega), ih]

/-- The loop of `bsearch` finds position `t` when the comparison function is
positive before `t`, zero at `t` and negative after `t`. -/
theorem bsearch_loop_finds (compar : lzip_index_member → Int)
    (base : List lzip_index_member) (t : Nat)
    (hbefore : ∀ (i : Nat) (p : lzip_index_member), i < t → base[i]? = some p → 0 < compar p)
    (hat : ∀ p : lzip_index_member, base[t]? = some p → compar p = 0)
    (hafter : ∀ (i : Nat) (p : lzip_index_member), t < i → base[i]? = some p → compar p < 0)
    (fuel l u : Nat) (reads : List Nat)
    (hl : l ≤ t) (hu : t < u) (hlen : u ≤ base.length) (hfuel : u - l ≤ fuel) :
    (bsearch_loop compar base fuel l u reads).1 = some t := by
  induction fuel generalizing l u reads with
  | zero => omega
  | succ k ih =>
    rw [bsearch_loop_succ]
    have hlu : l < u := by omega
    simp only [hlu, if_true]
    have hidx : (l + u) / 2 < base.length := by omega
    obtain ⟨p, hp⟩ : ∃ p, base[(l + u) / 2]? = some p := ⟨_, List.getElem?_eq_getElem hidx⟩
    rw [hp]
    simp only
    rcases Nat.lt_trichotomy ((l + u) / 2) t with hlt | heq | hgt
    · have hpos := hbefore _ p hlt hp
      have hneg : ¬ compar p < 0 := by omega
      simp only [hneg, if_false, gt_iff_lt, hpos, if_true]
      exact ih _ _ _ (by omega) hu hlen (by omega)
    · have hzero : compar p = 0 := hat p (by rw [← heq]; exact hp)
      simp [hzero, heq]
    · have hneg := hafter _ p hgt hp
      simp only [hneg, if_true]
      exact ih _ _ _ hl hgt (by omega) (by omega)

theorem data_size_sum_drop_succ (ms : List lzip_index_member) (i : Nat)
    (h : i < ms.length) :
    data_size_sum (ms.drop i) = ms[i].data_size + data_size_sum (ms.drop (i + 1)) := by
  rw [List.drop_eq_getElem_cons h, data_size_sum_cons]

theorem data_size_sum_drop_le (ms : List lzip_index_member) (j : Nat) :
    data_size_sum (ms.drop j) ≤ data_size_sum ms := by
  induction ms generalizing j with
  | nil => simp
  | cons m rest ih =>
    cases j with
    | zero => simp
    | succ j =>
      rw [List.drop_succ_cons, data_size_sum_cons]
      have := ih j
      omega

theorem data_size_sum_drop_antitone (ms : List lzip_index_member) (i j : Nat)
    (h : i ≤ j) : data_size_sum (ms.drop j) ≤ data_size_sum (ms.drop i) := by
  obtain ⟨d, rfl⟩ := Nat.exists_eq_add_of_le h
  rw [← List.drop_drop]
  exact data_size_sum_drop_le _ _

/-- Every offset below the sum of the sizes falls in the range of a stored
position: the sizes stored after it sum to at most the offset, and together
with its own size to more. -/
theorem exists_owner (ms : List lzip_index_member) (key : Nat)
    (h : key < data_size_sum ms) :
    ∃ t, t < ms.length ∧ data_size_sum (ms.drop (t + 1)) ≤ key ∧
      key < data_size_sum (ms.drop t) := by
  induction ms with
  | nil => simp [data_size_sum] at h
  | cons m rest ih =>
    by_cases hk : key < data_size_sum rest
    · obtain ⟨t, ht, h1, h2⟩ := ih hk
      exact ⟨t + 1, by simp [ht], by simpa using h1, by simpa using h2⟩
    · exact ⟨0, by simp, by simpa using Nat.le_of_not_lt hk, by simpa using h⟩

/-- The binary search over the finalized records returns the position that
owns the offset, when the sum of the sizes does not wrap. -/
theorem bsearch_with_offsets (ms : List lzip_index_member)
    (hsum : data_size_sum ms < UINT64_MOD) (key t : Nat) (ht : t < ms.length)
    (h1 : data_size_sum (ms.drop (t + 1)) ≤ key) (h2 : key < data_size_sum (ms.drop t)) :
    (bsearch (comparator key) (with_offsets ms) ms.length).1 = some t := by
  have hfield : ∀ (i : Nat) (p : lzip_index_member), (with_offsets ms)[i]? = some p →
      i < ms.length ∧ p.data_offset = data_size_sum (ms.drop (i + 1)) ∧
      (p.data_offset + p.data_size) % UINT64_MOD = data_size_sum (ms.drop i) := by
    intro i p hp
    rw [with_offsets_getElem?] at hp
    obtain ⟨m0, hm0, rfl⟩ := Option.map_eq_some'.mp hp
    obtain ⟨hi, rfl⟩ := List.getElem?_eq_some.mp hm0
    have hle1 := data_size_sum_drop_le ms (i + 1)
    have hle0 := data_size_sum_drop_le ms i
    have hsucc := data_size_sum_drop_succ ms i hi
    have hmod1 : data_size_sum (ms.drop (i + 1)) % UINT64_MOD =
        data_size_sum (ms.drop (i + 1)) := Nat.mod_eq_of_lt (by omega)
    refine ⟨hi, hmod1, ?_⟩
    simp only
    rw [hmod1, Nat.add_comm, ← hsucc]
    exact Nat.mod_eq_of_lt (by omega)
  unfold bsearch
  apply bsearch_loop_finds (comparator key) (with_offsets ms) t
  · intro i p hi hp
    obtain ⟨_, hoff, _⟩ := hfield i p hp
    have hanti := data_size_sum_drop_antitone ms (i + 1) t (by omega)
    have hlt : key < p.data_offset := by omega
    simp [comparator, hlt]
  · intro p hp
    obtain ⟨_, hoff, hend⟩ := hfield t p hp
    have hnlt : ¬ key < p.data_offset := by omega
    have hin : key < (p.data_offset + p.data_size) % UINT64_MOD := by omega
    simp [comparator, hnlt, hin]
  · intro i p hi hp
    obtain ⟨hilen, hoff, hend⟩ := hfield i p hp
    have hanti := data_size_sum_drop_antitone ms (t + 1) i (by omega)
    have hanti2 := data_size_sum_drop_antitone ms i (i + 1) (by omega)
    have hnlt : ¬ key < p.data_offset := by omega
    have hnin : ¬ key < (p.data_offset + p.data_size) % UINT64_MOD := by omega
    simp [comparator, hnlt, hnin]
  · omega
  · exact ht
  · rw [with_offsets_length]
  · omega

/-- In the binary-search regime, on an index whose sizes do not wrap,
`lzip_index_search` at an offset below `combined_data_size` returns the
position `t` that owns the offset. -/
theorem search_binary_regime (index : lzip_index)
    (hsum : data_size_sum index.members < UINT64_MOD)
    (hz : (lzip_index_finalize index).indexable_data_size = 0) (key t : Nat)
    (ht : t < index.members.length)
    (h1 : data_size_sum (index.members.drop (t + 1)) ≤ key)
    (h2 : key < data_size_sum (index.members.drop t)) :
    lzip_index_search (some (lzip_index_finalize index)) key = some t := by
  have hcomb : (lzip_index_finalize index).combined_data_size = data_size_sum index.members := by
    rw [lzip_index_finalize_eq]
    exact Nat.mod_eq_of_lt hsum
  have hle := data_size_sum_drop_le index.members t
  have hng : ¬ key > (lzip_index_finalize index).combined_data_size := by omega
  unfold lzip_index_search lzip_index_search_traced
  simp only [hng, if_false, hz, ne_eq, not_true_eq_false]
  rw [finalize_member_count]
  rw [lzip_index_finalize_eq]
  exact bsearch_with_offsets index.members hsum key t ht h1 h2

/-- In the binary-search regime, on an index whose sizes do not wrap,
`lzip_index_search` at an offset below `combined_data_size` returns the address
of a stored record whose logical range contains the offset. -/
theorem search_binary_regime_contains (index : lzip_index)
    (hsum : data_size_sum index.members < UINT64_MOD)
    (hz : (lzip_index_finalize index).indexable_data_size = 0) (key : Nat)
    (hkey : key < (lzip_index_finalize index).combined_data_size) :
    ∃ (t : Nat) (m : lzip_index_member),
      lzip_index_search (some (lzip_index_finalize index)) key = some t ∧
      (lzip_index_finalize index).members[t]? = some m ∧
      m.data_offset ≤ key ∧ key < m.data_offset + m.data_size := by
  have hcomb : (lzip_index_finalize index).combined_data_size = data_size_sum index.members := by
    rw [lzip_index_finalize_eq]
    exact Nat.mod_eq_of_lt hsum
  rw [hcomb] at hkey
  obtain ⟨t, ht, h1, h2⟩ := exists_owner index.members key hkey
  have hle1 := data_size_sum_drop_le index.members (t + 1)
  have hsucc := data_size_sum_drop_succ index.members t ht
  refine ⟨t, { index.members[t] with
      data_offset := data_size_sum (index.members.drop (t + 1)) % UINT64_MOD },
    search_binary_regime index hsum hz key t ht h1 h2, ?_, ?_, ?_⟩
  · rw [finalize_members_getElem?, List.getElem?_eq_getElem ht]
    rfl
  · simp only
    rw [Nat.mod_eq_of_lt (by omega)]
    exact h1
  · simp only
    rw [Nat.mod_eq_of_lt (by omega)]
    omega

/-- The loop of `bsearch` returns the null pointer when the comparison function
is zero on no element. -/
theorem bsearch_loop_none (compar : lzip_index_member → Int)
    (base : List lzip_index_member)
    (hno : ∀ (i : Nat) (p : lzip_index_member), base[i]? = some p → compar p ≠ 0)
    (fuel l u : Nat) (reads : List Nat) :
    (bsearch_loop compar base fuel l u reads).1 = none := by
  induction fuel generalizing l u reads with
  | zero => rfl
  | succ k ih =>
    rw [bsearch_loop_succ]
    by_cases hlu : l < u
    · simp only [hlu, if_true]
      cases hget : base[(l + u) / 2]? with
      | none => rfl
      | some p =>
        simp only
        have hp := hno _ p hget
        by_cases hneg : compar p < 0
        · simp only [hneg, if_true]
          exact ih _ _ _
        · have hpos : compar p > 0 := by omega
          simp only [hneg, if_false, hpos, if_true]
          exact ih _ _ _
    · simp [hlu]

/-- In the binary-search regime, on an index whose sizes do not wrap,
`lzip_index_search` at `combined_data_size` returns the null pointer. -/
theorem search_combined_binary_regime (index : lzip_index)
    (hsum : data_size_sum index.members < UINT64_MOD)
    (hz : (lzip_index_finalize index).indexable_data_size = 0) :
    lzip_index_search (some (lzip_index_finalize index))
      (lzip_index_finalize index).combined_data_size = none := by
  have hcomb : (lzip_index_finalize index).combined_data_size = data_size_sum index.members := by
    rw [lzip_index_finalize_eq]
    exact Nat.mod_eq_of_lt hsum
  unfold lzip_index_search lzip_index_search_traced
  simp only [gt_iff_lt, lt_self_iff_false, if_false, hz, ne_eq, not_true_eq_false]
  unfold bsearch
  apply bsearch_loop_none
  intro i p hp
  rw [finalize_members_getElem?] at hp
  obtain ⟨m0, hm0, rfl⟩ := Option.map_eq_some'.mp hp
  obtain ⟨hi, rfl⟩ := List.getElem?_eq_some.mp hm0
  have hle1 := data_size_sum_drop_le index.members (i + 1)
  have hle0 := data_size_sum_drop_le index.members i
  have hsucc := data_size_sum_drop_succ index.members i hi
  have hmod1 : data_size_sum (index.members.drop (i + 1)) % UINT64_MOD =
      data_size_sum (index.members.drop (i + 1)) := Nat.mod_eq_of_lt (by omega)
  rw [hcomb]
  have hnlt : ¬ data_size_sum index.members <
      data_size_sum (index.members.drop (i + 1)) % UINT64_MOD := by omega
  have hend : (data_size_sum (index.members.drop (i + 1)) % UINT64_MOD +
      index.members[i].data_size) % UINT64_MOD = data_size_sum (index.members.drop i) := by
    rw [hmod1, Nat.add_comm, ← hsucc]
    exact Nat.mod_eq_of_lt (by omega)
  have hnin : ¬ data_size_sum index.members < data_size_sum (index.members.drop i) := by omega
  simp [comparator, hnlt, hend, hnin]

/-! ## Claims about `lzip_index_finalize` -/

/-- Claim C2: after `lzip_index_finalize` the member count is unchanged, the
record at every stored position `i` has as `data_offset` the sum, modulo
`2^64`, of the `data_size` fields stored at the positions after `i`, and for a
non-empty index the record at position `member_count - 1` has `data_offset`
zero. -/
theorem finalize_data_offset_suffix_sum (index : lzip_index) :
    member_count (lzip_index_finalize index) = member_count index ∧
    (∀ (i : Nat) (m : lzip_index_member),
      (lzip_index_finalize index).members[i]? = some m →
      m.data_offset =
        data_size_sum ((lzip_index_finalize index).members.drop (i + 1)) % UINT64_MOD) ∧
    (0 < member_count index →
      ∃ m, (lzip_index_finalize index).members[member_count index - 1]? = some m ∧
        m.data_offset = 0) := by
  refine ⟨finalize_member_count index, ?_, ?_⟩
  · intro i m hm
    rw [finalize_members_getElem?] at hm
    obtain ⟨m0, _, rfl⟩ := Option.map_eq_some'.mp hm
    rw [lzip_index_finalize_eq]
    simp only
    rw [with_offsets_drop, with_offsets_data_size_sum]
  · intro hpos
    unfold member_count at hpos
    have hlt : member_count index - 1 < index.members.length := by
      unfold member_count; omega
    refine ⟨{ index.members[member_count index - 1] with data_offset := 0 }, ?_, rfl⟩
    rw [finalize_members_getElem?, List.getElem?_eq_getElem hlt]
    have hdrop : index.members.drop (member_count index - 1 + 1) = [] := by
      apply List.drop_eq_nil_of_le
      unfold member_count; omega
    simp [hdrop, data_size_sum]

/-- Witness for C2 on the three-member scenario: the record at stored position
1 has `data_offset = 100`, the size of the one record stored after it, and the
record at position 2 has `data_offset` zero. -/
theorem finalize_data_offset_suffix_sum_witness :
    (lzip_index_finalize scenario_uniform_raw).members[1]? = some ⟨100, 100, 3000, 120⟩ ∧
    (100 = data_size_sum ((lzip_index_finalize scenario_uniform_raw).members.drop (1 + 1))
      % UINT64_MOD) ∧
    0 < member_count scenario_uniform_raw ∧
    (∃ m, (lzip_index_finalize scenario_uniform_raw).members[
        member_count scenario_uniform_raw - 1]? = some m ∧ m.data_offset = 0) :=
  ⟨by decide,
    (finalize_data_offset_suffix_sum scenario_uniform_raw).2.1 1 ⟨100, 100, 3000, 120⟩
      (by decide),
    by decide,
    (finalize_data_offset_suffix_sum scenario_uniform_raw).2.2 (by decide)⟩

/-- Claim C3: after `lzip_index_finalize`, `combined_data_size` is the sum of
the `data_size` fields of the stored records modulo `2^64` (of the records
before and, equally, after the call); it is the exact sum when that sum is
below `2^64`; it is the same for every index storing a permutation of the same
records; and it is zero for the empty index. -/
theorem finalize_combined_data_size (index : lzip_index) :
    (lzip_index_finalize index).combined_data_size =
      data_size_sum index.members % UINT64_MOD ∧
    (lzip_index_finalize index).combined_data_size =
      data_size_sum (lzip_index_finalize index).members % UINT64_MOD ∧
    (data_size_sum index.members < UINT64_MOD →
      (lzip_index_finalize index).combined_data_size = data_size_sum index.members) ∧
    (∀ other : lzip_index, other.members.Perm index.members →
      (lzip_index_finalize other).combined_data_size =
        (lzip_index_finalize index).combined_data_size) ∧
    (lzip_index_finalize empty_index).combined_data_size = 0 := by
  refine ⟨?_, ?_, ?_, ?_, ?_⟩
  · rw [lzip_index_finalize_eq]
  · rw [lzip_index_finalize_eq]
    simp only
    rw [with_offsets_data_size_sum]
  · intro hlt
    rw [lzip_index_finalize_eq]
    exact Nat.mod_eq_of_lt hlt
  · intro other hperm
    rw [lzip_index_finalize_eq, lzip_index_finalize_eq]
    simp only
    unfold data_size_sum
    rw [(hperm.map (fun m => m.data_size)).sum_eq]
  · rw [lzip_index_finalize_eq]
    rfl

/-- Witness for C3 on the three-member scenario: the sum 300 is below `2^64`
and is the combined size, also when the three records are stored in another
order. -/
theorem finalize_combined_data_size_witness :
    data_size_sum scenario_uniform_raw.members < UINT64_MOD ∧
    (lzip_index_finalize scenario_uniform_raw).combined_data_size =
      data_size_sum scenario_uniform_raw.members ∧
    (lzip_index_finalize ⟨0, 0, scenario_uniform_raw.members.reverse⟩).combined_data_size =
      (lzip_index_finalize scenario_uniform_raw).combined_data_size :=
  ⟨by decide,
    (finalize_combined_data_size scenario_uniform_raw).2.2.1 (by decide),
    (finalize_combined_data_size scenario_uniform_raw).2.2.2.1
      ⟨0, 0, scenario_uniform_raw.members.reverse⟩ (List.reverse_perm _)⟩

/-- Claim C4: in a finalized index with `indexable_data_size` non-zero, every
record at a stored position `i` with `1 <= i < member_count` has `data_size`
equal to `indexable_data_size`. -/
theorem finalize_indexable_all_but_position_zero (index : lzip_index)
    (h : (lzip_index_finalize index).indexable_data_size ≠ 0) (i : Nat)
    (m : lzip_index_member) (hi : 1 ≤ i)
    (hm : (lzip_index_finalize index).members[i]? = some m) :
    m.data_size = (lzip_index_finalize index).indexable_data_size :=
  finalize_indexable_core index h i m hi hm

/-- Witness for C4 on an index whose file order is `100, 100, 50`: the stride
is 100 and the record at stored position 1 has size 100. -/
theorem finalize_indexable_all_but_position_zero_witness :
    (lzip_index_finalize (prepend_all empty_index
      [scanned_member (50, 200, 70), scanned_member (100, 100, 100),
        scanned_member (100, 0, 100)])).indexable_data_size ≠ 0 ∧
    (100 = (lzip_index_finalize (prepend_all empty_index
      [scanned_member (50, 200, 70), scanned_member (100, 100, 100),
        scanned_member (100, 0, 100)])).indexable_data_size) :=
  ⟨by decide,
    finalize_indexable_all_but_position_zero
      (prepend_all empty_index
        [scanned_member (50, 200, 70), scanned_member (100, 100, 100),
          scanned_member (100, 0, 100)])
      (by decide) 1 ⟨100, 100, 100, 100⟩ (by decide) (by decide)⟩

/-- Counterexample to C5 as stated: in the finalized index with file order
`100, 100, 50` the stride is `100`, stored position `0` lies in
`0 <= i < member_count - 1`, and the record there has `data_size = 50`. -/
theorem finalize_indexable_position_zero_differs :
    scenario_short_tail.indexable_data_size ≠ 0 ∧
    0 < member_count scenario_short_tail - 1 ∧
    ∃ m, scenario_short_tail.members[0]? = some m ∧
      m.data_size ≠ scenario_short_tail.indexable_data_size := by
  decide

/-- Claim C5, amended: in a finalized index with `indexable_data_size`
non-zero, every record except at most the last one in file order has
`data_size` equal to `indexable_data_size`: in the file-order listing, every
position `p` with `p + 1 < member_count` holds such a record. -/
theorem finalize_indexable_all_but_last_in_file (index : lzip_index)
    (h : (lzip_index_finalize index).indexable_data_size ≠ 0) (p : Nat)
    (m : lzip_index_member) (hp : p + 1 < member_count (lzip_index_finalize index))
    (hm : (listing (lzip_index_finalize index))[p]? = some m) :
    m.data_size = (lzip_index_finalize index).indexable_data_size := by
  rw [listing_eq_reverse] at hm
  unfold member_count at hp
  rw [List.getElem?_reverse (by omega)] at hm
  exact finalize_indexable_core index h _ m (by omega) hm

/-- Witness for the amended C5 on the index with file order `100, 100, 50`:
the first record in file order has the stride as its size. -/
theorem finalize_indexable_all_but_last_in_file_witness :
    (lzip_index_finalize (prepend_all empty_index
      [scanned_member (50, 200, 70), scanned_member (100, 100, 100),
        scanned_member (100, 0, 100)])).indexable_data_size ≠ 0 ∧
    0 + 1 < member_count (lzip_index_finalize (prepend_all empty_index
      [scanned_member (50, 200, 70), scanned_member (100, 100, 100),
        scanned_member (100, 0, 100)])) ∧
    (100 = (lzip_index_finalize (prepend_all empty_index
      [scanned_member (50, 200, 70), scanned_member (100, 100, 100),
        scanned_member (100, 0, 100)])).indexable_data_size) :=
  ⟨by decide, by decide,
    finalize_indexable_all_but_last_in_file
      (prepend_all empty_index
        [scanned_member (50, 200, 70), scanned_member (100, 100, 100),
          scanned_member (100, 0, 100)])
      (by decide) 0 ⟨0, 100, 0, 100⟩ (by decide) (by decide)⟩

/-! ## Claims about `lzip_index_search` -/

/-- Claim C1, evaluated on the three-member scenario: the index has
`combined_data_size = 300` and `indexable_data_size = 100`; for the offset 150,
which is below 300, `lzip_index_search` returns the address of `members[2]`,
the record with `member_offset = 0` and logical range `[0, 100)`, which does
not contain 150; the record with `member_offset = 3000` is at position 1. -/
theorem search_scenario_offset_150 :
    scenario_uniform.combined_data_size = 300 ∧
    scenario_uniform.indexable_data_size = 100 ∧
    lzip_index_search (some scenario_uniform) 150 = some 2 ∧
    pointee scenario_uniform (lzip_index_search (some scenario_uniform) 150) =
      some ⟨0, 100, 0, 120⟩ ∧
    ¬ (0 ≤ 150 ∧ 150 < 0 + 100) ∧
    scenario_uniform.members[1]? = some ⟨100, 100, 3000, 120⟩ := by
  decide

/-- Claim C6: for every index and every `data_offset` greater than
`combined_data_size`, `lzip_index_search` returns the null pointer and reads no
member. -/
theorem search_beyond_combined_is_null (index : lzip_index) (data_offset : Nat)
    (h : data_offset > index.combined_data_size) :
    lzip_index_search_traced (some index) data_offset = (none, []) ∧
    lzip_index_search (some index) data_offset = none := by
  have ht : lzip_index_search_traced (some index) data_offset = (none, []) := by
    simp [lzip_index_search_traced, h]
  exact ⟨ht, by simp [lzip_index_search, ht]⟩

/-- Witness for C6 on the three-member scenario at offset 301. -/
theorem search_beyond_combined_is_null_witness :
    301 > scenario_uniform.combined_data_size ∧
    lzip_index_search_traced (some scenario_uniform) 301 = (none, []) ∧
    lzip_index_search (some scenario_uniform) 301 = none :=
  ⟨by decide, search_beyond_combined_is_null scenario_uniform 301 (by decide)⟩

/-- Claim C7, evaluated on the three-member scenario: with
`combined_data_size = 300` and a non-zero stride, `lzip_index_search` at offset
300 returns the address of `members[0]`, not the null pointer.  On the index
with file order `50, 100, 100`, whose stride is zero, the binary-search branch
does return the null pointer at `combined_data_size`. -/
theorem search_scenario_offset_300 :
    scenario_uniform.combined_data_size = 300 ∧
    scenario_uniform.indexable_data_size ≠ 0 ∧
    lzip_index_search (some scenario_uniform) 300 = some 0 ∧
    lzip_index_search (some scenario_uniform) 300 ≠ none ∧
    scenario_short_head.indexable_data_size = 0 ∧
    lzip_index_search (some scenario_short_head)
      scenario_short_head.combined_data_size = none := by
  decide

/-- Counterexample to C8 as stated.  In the index with file order `0, 5` (two
members, stride zero, binary-search branch) `lzip_index_search` at offset 0
returns the address of `members[0]`, the record of size 5 that holds offset 0,
not that of `members[member_count - 1]`, the empty first record.  In the
three-member scenario (stride 100, constant-time branch) it returns the address
`&members[3]`, which designates no stored record. -/
theorem search_zero_not_first_in_file :
    member_count scenario_empty_head = 2 ∧
    scenario_empty_head.indexable_data_size = 0 ∧
    lzip_index_search (some scenario_empty_head) 0 = some 0 ∧
    lzip_index_search (some scenario_empty_head) 0 ≠
      some (member_count scenario_empty_head - 1) ∧
    pointee scenario_empty_head (lzip_index_search (some scenario_empty_head) 0) =
      some ⟨0, 5, 36, 41⟩ ∧
    member_count scenario_uniform = 3 ∧
    lzip_index_search (some scenario_uniform) 0 = some 3 ∧
    lzip_index_search (some scenario_uniform) 0 ≠ some (member_count scenario_uniform - 1) ∧
    pointee scenario_uniform (lzip_index_search (some scenario_uniform) 0) = none := by
  decide

/-- Claim C8, amended: for every non-empty finalized index in the binary-search
regime (`indexable_data_size = 0`) whose sizes sum to less than `2^64` and whose
first record in file order, stored at `members[member_count - 1]`, has a
non-zero `data_size`, `lzip_index_search` at offset 0 returns the address of
`members[member_count - 1]`, and that record has `data_offset` zero. -/
theorem search_zero_binary_regime (index : lzip_index)
    (hsum : data_size_sum index.members < UINT64_MOD)
    (hz : (lzip_index_finalize index).indexable_data_size = 0)
    (hne : 0 < member_count (lzip_index_finalize index))
    (m : lzip_index_member)
    (hm : (lzip_index_finalize index).members[
      member_count (lzip_index_finalize index) - 1]? = some m)
    (hsize : 0 < m.data_size) :
    lzip_index_search (some (lzip_index_finalize index)) 0 =
      some (member_count (lzip_index_finalize index) - 1) ∧
    pointee (lzip_index_finalize index)
      (lzip_index_search (some (lzip_index_finalize index)) 0) = some m ∧
    m.data_offset = 0 := by
  rw [finalize_member_count] at hne hm ⊢
  unfold member_count at hne hm ⊢
  have hlast : index.members.length - 1 < index.members.length := by omega
  have hdrop : index.members.drop (index.members.length - 1 + 1) = [] :=
    List.drop_eq_nil_of_le (by omega)
  have hm2 := hm
  rw [finalize_members_getElem?, List.getElem?_eq_getElem hlast, hdrop] at hm2
  simp only [Option.map_some', Option.some.injEq] at hm2
  have hsz : m.data_size = index.members[index.members.length - 1].data_size := by
    rw [← hm2]
  have hoff : m.data_offset = 0 := by
    rw [← hm2]; rfl
  have hsearch := search_binary_regime index hsum hz 0 (index.members.length - 1) hlast
    (by rw [hdrop]; exact Nat.le_refl _)
    (by rw [data_size_sum_drop_succ _ _ hlast, ← hsz]; omega)
  refine ⟨hsearch, ?_, hoff⟩
  rw [hsearch]
  exact hm

/-- Witness for the amended C8 on the index with file order `50, 100, 100`:
the stride is zero and the search at offset 0 returns the address of
`members[2]`. -/
theorem search_zero_binary_regime_witness :
    data_size_sum (prepend_all empty_index
      [scanned_member (100, 170, 120), scanned_member (100, 70, 100),
        scanned_member (50, 0, 70)]).members < UINT64_MOD ∧
    (lzip_index_finalize (prepend_all empty_index
      [scanned_member (100, 170, 120), scanned_member (100, 70, 100),
        scanned_member (50, 0, 70)])).indexable_data_size = 0 ∧
    (lzip_index_search (some (lzip_index_finalize (prepend_all empty_index
      [scanned_member (100, 170, 120), scanned_member (100, 70, 100),
        scanned_member (50, 0, 70)]))) 0 =
      some (member_count (lzip_index_finalize (prepend_all empty_index
        [scanned_member (100, 170, 120), scanned_member (100, 70, 100),
          scanned_member (50, 0, 70)])) - 1)) :=
  ⟨by decide, by decide,
    (search_zero_binary_regime
      (prepend_all empty_index
        [scanned_member (100, 170, 120), scanned_member (100, 70, 100),
          scanned_member (50, 0, 70)])
      (by decide) (by decide) (by decide) ⟨0, 50, 0, 70⟩ (by decide) (by decide)).1⟩

/-- Claim C9, evaluated on the three-member scenario, where every record has
size 100 and the constant-time branch is taken: at offset 150 the linear scan
finds position 1 and `lzip_index_search` returns position 2, and the two
records differ. -/
theorem search_differs_from_linear_scan :
    scenario_uniform.indexable_data_size ≠ 0 ∧
    150 ≤ scenario_uniform.combined_data_size ∧
    linear_scan scenario_uniform 150 = some 1 ∧
    lzip_index_search (some scenario_uniform) 150 = some 2 ∧
    pointee scenario_uniform (lzip_index_search (some scenario_uniform) 150) ≠
      pointee scenario_uniform (linear_scan scenario_uniform 150) := by
  decide

/-! ## Round trip -/

/-- Claim C10: for every file-order list `L` of triples
`(data_size, member_offset, member_size)`, prepending the records of `L` in
reverse order to the empty index and finalizing gives an index with
`member_count = L.length` whose listing (stored position `member_count - 1`
down to `0`) has exactly the triples of `L`, in order; and
`lzip_index_finalize` leaves the sequence of triples of any index unchanged. -/
theorem round_trip (L : List (Nat × Nat × Nat)) :
    (listing (build_index (L.reverse.map scanned_member))).map member_triple = L ∧
    member_count (build_index (L.reverse.map scanned_member)) = L.length ∧
    ∀ index : lzip_index,
      (lzip_index_finalize index).members.map member_triple =
        index.members.map member_triple := by
  have hfin : ∀ index : lzip_index,
      (lzip_index_finalize index).members.map member_triple =
        index.members.map member_triple := by
    intro index
    rw [lzip_index_finalize_eq]
    exact with_offsets_map_triple index.members
  refine ⟨?_, ?_, hfin⟩
  · rw [listing_eq_reverse, List.map_reverse]
    unfold build_index
    rw [hfin, prepend_all_members]
    simp [empty_index, Function.comp_def, member_triple, scanned_member]
  · unfold build_index
    rw [finalize_member_count]
    simp [member_count, prepend_all_members, empty_index]

/-! ## Claims about `lzip_index_prepend` and `lzip_index_destroy` -/

/-- Claim C11: when the allocation fails `lzip_index_prepend` returns the
non-zero code 1 and the index is exactly the one before the call; when the
allocation succeeds it returns zero; and for every record the return code is
zero exactly when the allocation succeeded, whatever the fields of the record
are. -/
theorem prepend_atomic_on_allocation_failure (index : lzip_index)
    (member : lzip_index_member) :
    lzip_index_prepend index member false = (1, index) ∧
    (lzip_index_prepend index member false).1 ≠ 0 ∧
    (lzip_index_prepend index member false).2.members = index.members ∧
    member_count (lzip_index_prepend index member false).2 = member_count index ∧
    (lzip_index_prepend index member false).2.combined_data_size =
      index.combined_data_size ∧
    (lzip_index_prepend index member false).2.indexable_data_size =
      index.indexable_data_size ∧
    (lzip_index_prepend index member true).1 = 0 ∧
    ∀ (other : lzip_index_member) (alloc_ok : Bool),
      (lzip_index_prepend index other alloc_ok).1 =
        (lzip_index_prepend index member alloc_ok).1 := by
  refine ⟨rfl, by simp [lzip_index_prepend], rfl, rfl, rfl, rfl, rfl, ?_⟩
  intro other alloc_ok
  cases alloc_ok <;> rfl

/-- Counterexample to C12 as stated: after a successful `lzip_index_prepend` of
the record with `member_offset = 3000` on an index that holds the record with
`member_offset = 5000`, stored position 0 still holds the old record and the
new record is at stored position 1. -/
theorem prepend_not_at_position_zero :
    (lzip_index_prepend scenario_one_record (scanned_member (100, 3000, 120)) true).1 = 0 ∧
    (lzip_index_prepend scenario_one_record (scanned_member (100, 3000, 120)) true).2.members[0]?
      = some (scanned_member (100, 5000, 120)) ∧
    (lzip_index_prepend scenario_one_record (scanned_member (100, 3000, 120)) true).2.members[0]?
      ≠ some (scanned_member (100, 3000, 120)) ∧
    (lzip_index_prepend scenario_one_record (scanned_member (100, 3000, 120)) true).2.members[1]?
      = some (scanned_member (100, 3000, 120)) := by
  decide

/-- Claim C12, amended: a successful `lzip_index_prepend` on an index holding
`n` records gives `member_count = n + 1`, keeps the `n` stored records
unchanged at their positions `0, ..., n - 1`, makes a verbatim copy of the
record the new last element of the stored sequence, at stored position `n`, and
leaves `combined_data_size` and `indexable_data_size` unchanged. -/
theorem prepend_stores_at_end (index : lzip_index) (member : lzip_index_member) :
    (lzip_index_prepend index member true).1 = 0 ∧
    member_count (lzip_index_prepend index member true).2 = member_count index + 1 ∧
    (∀ i : Nat, i < member_count index →
      (lzip_index_prepend index member true).2.members[i]? = index.members[i]?) ∧
    (lzip_index_prepend index member true).2.members[member_count index]? = some member ∧
    (lzip_index_prepend index member true).2.members = index.members ++ [member] ∧
    (lzip_index_prepend index member true).2.combined_data_size =
      index.combined_data_size ∧
    (lzip_index_prepend index member true).2.indexable_data_size =
      index.indexable_data_size := by
  refine ⟨rfl, by simp [lzip_index_prepend, member_count], ?_, ?_, rfl, rfl, rfl⟩
  · intro i hi
    unfold member_count at hi
    simp only [lzip_index_prepend, if_true]
    rw [List.getElem?_append_left hi]
  · simp only [lzip_index_prepend, if_true, member_count]
    rw [List.getElem?_append_right (le_refl _)]
    simp

/-- Witness for the amended C12 on the index with one record: position 0 is
below the old member count and keeps its record. -/
theorem prepend_stores_at_end_witness :
    0 < member_count scenario_one_record ∧
    (lzip_index_prepend scenario_one_record (scanned_member (100, 3000, 120)) true).2.members[0]?
      = scenario_one_record.members[0]? :=
  ⟨by decide,
    (prepend_stores_at_end scenario_one_record (scanned_member (100, 3000, 120))).2.2.1 0
      (by decide)⟩

/-- Claim C13: `lzip_index_destroy` resets every index to the zero value (no
records, `member_count = 0`, `combined_data_size = 0`,
`indexable_data_size = 0`), and a second call gives the same zero index, also
when the index was the zero index from the start. -/
theorem destroy_resets_and_is_idempotent (index : lzip_index) :
    lzip_index_destroy index = empty_index ∧
    (lzip_index_destroy index).members = [] ∧
    member_count (lzip_index_destroy index) = 0 ∧
    (lzip_index_destroy index).combined_data_size = 0 ∧
    (lzip_index_destroy index).indexable_data_size = 0 ∧
    lzip_index_destroy (lzip_index_destroy index) = lzip_index_destroy index ∧
    lzip_index_destroy empty_index = empty_index ∧
    lzip_index_destroy (lzip_index_destroy empty_index) = empty_index :=
  ⟨rfl, rfl, rfl, rfl, rfl, rfl, rfl, rfl⟩

/-! ## Claims about the stride computed by `lzip_index_finalize` -/

/-- Counterexample to C14 as stated: in the two-member scenario
`lzip_index_finalize` yields `indexable_data_size = 50`, not zero. -/
theorem scenario_two_members_stride_not_zero :
    scenario_two_members.indexable_data_size = 50 ∧
    scenario_two_members.indexable_data_size ≠ 0 := by
  decide

/-- Claim C14, amended: in the two-member scenario `lzip_index_finalize` yields
`indexable_data_size = 50`, the size of the first member in file order, and
`combined_data_size = 250`, so that the search at offset 60 takes the
constant-time branch and reads no member. -/
theorem scenario_two_members_constant_time :
    scenario_two_members.members =
      [⟨50, 200, 70, 220⟩, ⟨0, 50, 0, 70⟩] ∧
    scenario_two_members.indexable_data_size = 50 ∧
    scenario_two_members.combined_data_size = 250 ∧
    ¬ (60 > scenario_two_members.combined_data_size) ∧
    scenario_two_members.indexable_data_size ≠ 0 ∧
    (lzip_index_search_traced (some scenario_two_members) 60).2 = [] := by
  decide

/-! ## Layout of the finalized records and the binary-search branch -/

/-- In a finalized index whose sizes do not wrap, the record at stored position
`i` starts where the sizes stored after it end, and ends where the sizes stored
from `i` on end. -/
theorem finalize_member_range (index : lzip_index)
    (hsum : data_size_sum index.members < UINT64_MOD) (i : Nat) (p : lzip_index_member)
    (hp : (lzip_index_finalize index).members[i]? = some p) :
    i < index.members.length ∧
    p.data_offset = data_size_sum (index.members.drop (i + 1)) ∧
    p.data_offset + p.data_size = data_size_sum (index.members.drop i) := by
  rw [finalize_members_getElem?] at hp
  obtain ⟨m0, hm0, rfl⟩ := Option.map_eq_some'.mp hp
  obtain ⟨hi, rfl⟩ := List.getElem?_eq_some.mp hm0
  have hle1 := data_size_sum_drop_le index.members (i + 1)
  have hsucc := data_size_sum_drop_succ index.members i hi
  have hmod1 : data_size_sum (index.members.drop (i + 1)) % UINT64_MOD =
      data_size_sum (index.members.drop (i + 1)) := Nat.mod_eq_of_lt (by omega)
  refine ⟨hi, hmod1, ?_⟩
  simp only
  rw [hmod1, Nat.add_comm, ← hsucc]

/-- In a finalized index whose sizes do not wrap, the record at stored position
`i` starts where the record at position `i + 1` ends. -/
theorem finalize_adjacent (index : lzip_index)
    (hsum : data_size_sum index.members < UINT64_MOD) (i : Nat) (a b : lzip_index_member)
    (ha : (lzip_index_finalize index).members[i]? = some a)
    (hb : (lzip_index_finalize index).members[i + 1]? = some b) :
    a.data_offset = b.data_offset + b.data_size := by
  obtain ⟨_, hoffa, _⟩ := finalize_member_range index hsum i a ha
  obtain ⟨_, _, hendb⟩ := finalize_member_range index hsum (i + 1) b hb
  rw [hoffa, hendb]

/-- In a finalized index whose sizes do not wrap, two stored positions whose
logical ranges contain the same offset are the same position. -/
theorem finalize_owner_unique (index : lzip_index)
    (hsum : data_size_sum index.members < UINT64_MOD) (key s t : Nat)
    (a b : lzip_index_member)
    (ha : (lzip_index_finalize index).members[s]? = some a)
    (hb : (lzip_index_finalize index).members[t]? = some b)
    (ha1 : a.data_offset ≤ key) (ha2 : key < a.data_offset + a.data_size)
    (hb1 : b.data_offset ≤ key) (hb2 : key < b.data_offset + b.data_size) :
    s = t := by
  obtain ⟨_, hoa, hea⟩ := finalize_member_range index hsum s a ha
  obtain ⟨_, hob, heb⟩ := finalize_member_range index hsum t b hb
  rcases Nat.lt_trichotomy s t with hlt | heq | hgt
  · have := data_size_sum_drop_antitone index.members (s + 1) t (by omega)
    omega
  · exact heq
  · have := data_size_sum_drop_antitone index.members (t + 1) s (by omega)
    omega

/-- Claim C15: in every finalized index with `indexable_data_size = 0` whose
sizes sum to less than `2^64`, neighbouring stored records have contiguous
ranges, `members[i].data_offset = members[i+1].data_offset +
members[i+1].data_size`, so the offsets do not increase with the stored
position; for every offset below `combined_data_size` `lzip_index_search`
returns the address of a stored record whose range contains the offset, and no
other stored position has such a range; and at `combined_data_size` it returns
the null pointer. -/
theorem search_binary_regime_correct (index : lzip_index)
    (hsum : data_size_sum index.members < UINT64_MOD)
    (hz : (lzip_index_finalize index).indexable_data_size = 0) :
    (∀ (i : Nat) (a b : lzip_index_member),
      (lzip_index_finalize index).members[i]? = some a →
      (lzip_index_finalize index).members[i + 1]? = some b →
      a.data_offset = b.data_offset + b.data_size ∧ b.data_offset ≤ a.data_offset) ∧
    (∀ data_offset : Nat, data_offset < (lzip_index_finalize index).combined_data_size →
      ∃ (t : Nat) (m : lzip_index_member),
        lzip_index_search (some (lzip_index_finalize index)) data_offset = some t ∧
        (lzip_index_finalize index).members[t]? = some m ∧
        m.data_offset ≤ data_offset ∧ data_offset < m.data_offset + m.data_size ∧
        ∀ (s : Nat) (other : lzip_index_member),
          (lzip_index_finalize index).members[s]? = some other →
          other.data_offset ≤ data_offset →
          data_offset < other.data_offset + other.data_size → s = t) ∧
    lzip_index_search (some (lzip_index_finalize index))
      (lzip_index_finalize index).combined_data_size = none := by
  refine ⟨?_, ?_, search_combined_binary_regime index hsum hz⟩
  · intro i a b ha hb
    have h := finalize_adjacent index hsum i a b ha hb
    exact ⟨h, by omega⟩
  · intro key hkey
    obtain ⟨t, m, hs, hm, h1, h2⟩ := search_binary_regime_contains index hsum hz key hkey
    refine ⟨t, m, hs, hm, h1, h2, ?_⟩
    intro s other ho ho1 ho2
    exact finalize_owner_unique index hsum key s t other m ho hm ho1 ho2 h1 h2

/-- Witness for C15 on the index with file order `50, 100, 100`, whose stride
is zero: the records at stored positions 0 and 1 are contiguous, the search at
offset 60 returns a record that contains it, and the search at
`combined_data_size` returns the null pointer. -/
theorem search_binary_regime_correct_witness :
    data_size_sum (prepend_all empty_index
      [scanned_member (100, 170, 120), scanned_member (100, 70, 100),
        scanned_member (50, 0, 70)]).members < UINT64_MOD ∧
    (lzip_index_finalize (prepend_all empty_index
      [scanned_member (100, 170, 120), scanned_member (100, 70, 100),
        scanned_member (50, 0, 70)])).indexable_data_size = 0 ∧
    (150 = 50 + 100 ∧ 50 ≤ 150) ∧
    (∃ (t : Nat) (m : lzip_index_member),
      lzip_index_search (some (lzip_index_finalize (prepend_all empty_index
        [scanned_member (100, 170, 120), scanned_member (100, 70, 100),
          scanned_member (50, 0, 70)]))) 60 = some t ∧
      (lzip_index_finalize (prepend_all empty_index
        [scanned_member (100, 170, 120), scanned_member (100, 70, 100),
          scanned_member (50, 0, 70)])).members[t]? = some m ∧
      m.data_offset ≤ 60 ∧ 60 < m.data_offset + m.data_size ∧
      ∀ (s : Nat) (other : lzip_index_member),
        (lzip_index_finalize (prepend_all empty_index
          [scanned_member (100, 170, 120), scanned_member (100, 70, 100),
            scanned_member (50, 0, 70)])).members[s]? = some other →
        other.data_offset ≤ 60 →
        60 < other.data_offset + other.data_size → s = t) ∧
    lzip_index_search (some (lzip_index_finalize (prepend_all empty_index
      [scanned_member (100, 170, 120), scanned_member (100, 70, 100),
        scanned_member (50, 0, 70)])))
      (lzip_index_finalize (prepend_all empty_index
        [scanned_member (100, 170, 120), scanned_member (100, 70, 100),
          scanned_member (50, 0, 70)])).combined_data_size = none :=
  ⟨by decide, by decide,
    (search_binary_regime_correct
      (prepend_all empty_index
        [scanned_member (100, 170, 120), scanned_member (100, 70, 100),
          scanned_member (50, 0, 70)])
      (by decide) (by decide)).1 0 ⟨150, 100, 170, 120⟩ ⟨50, 100, 70, 100⟩
      (by decide) (by decide),
    (search_binary_regime_correct
      (prepend_all empty_index
        [scanned_member (100, 170, 120), scanned_member (100, 70, 100),
          scanned_member (50, 0, 70)])
      (by decide) (by decide)).2.1 60 (by decide),
    (search_binary_regime_correct
      (prepend_all empty_index
        [scanned_member (100, 170, 120), scanned_member (100, 70, 100),
          scanned_member (50, 0, 70)])
      (by decide) (by decide)).2.2⟩

/-! ## The exact stride -/

theorem last_data_size_eq (ms : List lzip_index_member) (last : lzip_index_member)
    (h : ms[ms.length - 1]? = some last) : last_data_size ms = last.data_size := by
  induction ms with
  | nil => simp at h
  | cons a rest ih =>
    cases rest with
    | nil =>
      simp at h
      rw [← h]; rfl
    | cons b r =>
      have h2 : (b :: r)[(b :: r).length - 1]? = some last := by
        simpa using h
      exact ih h2

theorem uniform_or_zero_of_all (c : Nat) (ms : List lzip_index_member)
    (h : ∀ m ∈ ms, m.data_size = c) : uniform_or_zero c ms = c := by
  unfold uniform_or_zero
  have hall : (ms.all fun x => decide (x.data_size = c)) = true := by
    rw [List.all_eq_true]
    intro m hm
    simpa using h m hm
  simp [hall]

/-- Claim C16: after `lzip_index_finalize`, `indexable_data_size` is zero for
an index without records; for a non-empty index, with `last` the record at
`members[member_count - 1]`, it is `last.data_size` when every record at a
stored position `i` with `0 < i < member_count - 1` has that `data_size`, and
zero otherwise; for an index with exactly one record it is the `data_size` of
that record. -/
theorem finalize_indexable_exact (index : lzip_index) :
    (member_count index = 0 → (lzip_index_finalize index).indexable_data_size = 0) ∧
    ∀ last : lzip_index_member,
      (lzip_index_finalize index).members[member_count index - 1]? = some last →
      ((∀ (i : Nat) (m : lzip_index_member), 0 < i → i < member_count index - 1 →
          (lzip_index_finalize index).members[i]? = some m →
          m.data_size = last.data_size) →
        (lzip_index_finalize index).indexable_data_size = last.data_size) ∧
      (¬ (∀ (i : Nat) (m : lzip_index_member), 0 < i → i < member_count index - 1 →
          (lzip_index_finalize index).members[i]? = some m →
          m.data_size = last.data_size) →
        (lzip_index_finalize index).indexable_data_size = 0) ∧
      (member_count index = 1 →
        (lzip_index_finalize index).indexable_data_size = last.data_size) := by
  have hind : (lzip_index_finalize index).indexable_data_size =
      uniform_or_zero (last_data_size index.members) index.members.tail := by
    rw [lzip_index_finalize_eq]
  refine ⟨?_, ?_⟩
  · intro h0
    unfold member_count at h0
    have hnil : index.members = [] := List.length_eq_zero.mp h0
    rw [hind, hnil]
    rfl
  · intro last hlast
    unfold member_count at hlast ⊢
    have hlast2 := hlast
    rw [finalize_members_getElem?] at hlast2
    obtain ⟨l0, hl0, hl0eq⟩ := Option.map_eq_some'.mp hlast2
    have hsz : last.data_size = l0.data_size := by rw [← hl0eq]
    have hc : last_data_size index.members = last.data_size := by
      rw [hsz]; exact last_data_size_eq index.members l0 hl0
    have hpart1 : (∀ (i : Nat) (m : lzip_index_member), 0 < i →
        i < index.members.length - 1 →
        (lzip_index_finalize index).members[i]? = some m →
        m.data_size = last.data_size) →
        (lzip_index_finalize index).indexable_data_size = last.data_size := by
      intro hall
      rw [hind, hc]
      apply uniform_or_zero_of_all
      intro m hm
      obtain ⟨k, hk⟩ := List.getElem?_of_mem hm
      have hk1 : index.members[k + 1]? = some m := by
        rw [← hk, List.getElem?_tail]
      obtain ⟨hklt, _⟩ := List.getElem?_eq_some.mp hk1
      by_cases hend : k + 1 = index.members.length - 1
      · rw [hend, hl0] at hk1
        rw [hsz]
        exact congrArg lzip_index_member.data_size (Option.some.inj hk1).symm
      · have hf : (lzip_index_finalize index).members[k + 1]? =
            some { m with data_offset :=
              data_size_sum (index.members.drop (k + 1 + 1)) % UINT64_MOD } := by
          rw [finalize_members_getElem?, hk1]; rfl
        have hres := hall (k + 1)
          { m with data_offset :=
            data_size_sum (index.members.drop (k + 1 + 1)) % UINT64_MOD }
          (by omega) (by omega) hf
        exact hres
    refine ⟨hpart1, ?_, ?_⟩
    · intro hnot
      by_contra hne
      apply hnot
      intro i m hi _ hm
      have h1 := finalize_indexable_core index hne i m (by omega) hm
      rw [h1, hind, hc]
      rw [hind, hc] at hne
      exact (uniform_or_zero_ne_zero hne).1
    · intro hone
      apply hpart1
      intro i m hi hlt
      omega

/-- Witness for C16: in the three-member scenario every record has size 100 and
the stride is 100; with file order `50, 100, 100` the record at stored position
1 differs from the record at position 2 and the stride is zero; an index with
one record of size 100 gets the stride 100. -/
theorem finalize_indexable_exact_witness :
    (member_count empty_index = 0 ∧
      (lzip_index_finalize empty_index).indexable_data_size = 0) ∧
    (lzip_index_finalize scenario_uniform_raw).indexable_data_size = 100 ∧
    (lzip_index_finalize scenario_short_head_raw).indexable_data_size = 0 ∧
    (member_count scenario_one_record = 1 ∧
      (lzip_index_finalize scenario_one_record).indexable_data_size = 100) :=
  ⟨⟨by decide, (finalize_indexable_exact empty_index).1 (by decide)⟩,
    ((finalize_indexable_exact scenario_uniform_raw).2 ⟨0, 100, 0, 120⟩ (by decide)).1
      (fun i m hi hlt hm => by
        have hi1 : i = 1 := by
          have : member_count scenario_uniform_raw = 3 := by decide
          omega
        subst hi1
        have hm1 : (lzip_index_finalize scenario_uniform_raw).members[1]? =
            some ⟨100, 100, 3000, 120⟩ := by decide
        rw [hm1] at hm
        rw [← Option.some.inj hm]),
    ((finalize_indexable_exact scenario_short_head_raw).2 ⟨0, 50, 0, 70⟩ (by decide)).2.1
      (fun hall => absurd (hall 1 ⟨50, 100, 70, 100⟩ (by decide) (by decide) (by decide))
        (by decide)),
    ⟨by decide,
      ((finalize_indexable_exact scenario_one_record).2 ⟨0, 100, 5000, 120⟩
        (by decide)).2.2 (by decide)⟩⟩

/-! ## Order of processing, the exempt record and the offsets -/

/-- Counterexample to C17 as stated: in the finalized index with file order
`100, 100, 50` the record at stored position 0 has `data_offset = 200`, not 0,
and the record at stored position 1 has `data_offset = 100`, not the size 50
of the record at position 0. -/
theorem finalize_position_zero_offset_not_zero :
    scenario_short_tail.members[0]? = some ⟨200, 50, 200, 70⟩ ∧
    scenario_short_tail.members[1]? = some ⟨100, 100, 100, 100⟩ ∧
    scenario_short_tail.members[2]? = some ⟨0, 100, 0, 100⟩ ∧
    (200 : Nat) ≠ 0 ∧ (100 : Nat) ≠ 50 := by
  decide

/-- Claim C17, amended: `lzip_index_finalize` processes the stored records from
stored position `member_count - 1` down to position 0.  After the first `k`
iterations, `k <= member_count`, the running total is the sum modulo `2^64` of
the sizes at the last `k` stored positions, the records at the positions below
`member_count - k` are untouched, every record at a position `i` from
`member_count - k` on has received as `data_offset` the sum modulo `2^64` of
the sizes at the positions after `i`, and, once `k >= 1`, the record at
position `member_count - 1` has `data_offset` zero. -/
theorem finalize_loop_processes_from_end (index : lzip_index) (k : Nat)
    (hk : k ≤ member_count index) :
    (finalize_loop (member_count index) k ⟨index.members, 0, 0⟩).combined_data_size =
      data_size_sum (index.members.drop (member_count index - k)) % UINT64_MOD ∧
    (∀ i : Nat, i < member_count index - k →
      (finalize_loop (member_count index) k ⟨index.members, 0, 0⟩).members[i]? =
        index.members[i]?) ∧
    (∀ (i : Nat) (m : lzip_index_member), member_count index - k ≤ i →
      (finalize_loop (member_count index) k ⟨index.members, 0, 0⟩).members[i]? = some m →
      m.data_offset = data_size_sum (index.members.drop (i + 1)) % UINT64_MOD) ∧
    (1 ≤ k → ∃ m : lzip_index_member,
      (finalize_loop (member_count index) k ⟨index.members, 0, 0⟩).members[
        member_count index - 1]? = some m ∧ m.data_offset = 0) := by
  unfold member_count at hk ⊢
  have hspec := finalize_loop_spec (index.members.drop (index.members.length - k))
    (index.members.take (index.members.length - k))
  have hlen1 : (index.members.take (index.members.length - k)).length =
      index.members.length - k := by
    rw [List.length_take]; omega
  have hlen2 : (index.members.drop (index.members.length - k)).length = k := by
    rw [List.length_drop]; omega
  rw [hlen1, hlen2, List.take_append_drop] at hspec
  have hn : index.members.length - k + k = index.members.length := by omega
  rw [hn] at hspec
  rw [hspec]
  have hassigned : ∀ (i : Nat) (m : lzip_index_member), index.members.length - k ≤ i →
      (index.members.take (index.members.length - k) ++
        with_offsets (index.members.drop (index.members.length - k)))[i]? = some m →
      ∃ m0, index.members[i]? = some m0 ∧
        m = { m0 with data_offset :=
          data_size_sum (index.members.drop (i + 1)) % UINT64_MOD } := by
    intro i m hi hm
    rw [List.getElem?_append_right (by rw [hlen1]; exact hi), hlen1,
      with_offsets_getElem?] at hm
    obtain ⟨m0, hm0, hmeq⟩ := Option.map_eq_some'.mp hm
    rw [List.getElem?_drop] at hm0
    have hidx : index.members.length - k + (i - (index.members.length - k)) = i := by omega
    rw [hidx] at hm0
    refine ⟨m0, hm0, ?_⟩
    rw [← hmeq, List.drop_drop]
    have hidx2 : index.members.length - k + (i - (index.members.length - k) + 1) = i + 1 := by
      omega
    rw [hidx2]
  refine ⟨rfl, ?_, ?_, ?_⟩
  · intro i hi
    simp only
    rw [List.getElem?_append_left (by rw [hlen1]; exact hi), List.getElem?_take_of_lt hi]
  · intro i m hi hm
    obtain ⟨m0, _, rfl⟩ := hassigned i m hi hm
    rfl
  · intro hk1
    have hlast : index.members.length - 1 < index.members.length := by omega
    refine ⟨{ index.members[index.members.length - 1] with data_offset := 0 }, ?_, rfl⟩
    simp only
    rw [List.getElem?_append_right (by rw [hlen1]; omega), hlen1, with_offsets_getElem?,
      List.getElem?_drop]
    have hidx : index.members.length - k +
        (index.members.length - 1 - (index.members.length - k)) =
        index.members.length - 1 := by omega
    rw [hidx, List.getElem?_eq_getElem hlast, List.drop_drop]
    have hnil : index.members.drop (index.members.length - k +
        (index.members.length - 1 - (index.members.length - k) + 1)) = [] :=
      List.drop_eq_nil_of_le (by omega)
    rw [hnil]
    rfl

/-- Witness for the amended C17 on the three-member scenario after one
iteration: positions 0 and 1 are untouched, the running total is 100 and the
record at position 2 has `data_offset` zero. -/
theorem finalize_loop_processes_from_end_witness :
    1 ≤ member_count scenario_uniform_raw ∧
    (finalize_loop (member_count scenario_uniform_raw) 1
      ⟨scenario_uniform_raw.members, 0, 0⟩).members[0]? = scenario_uniform_raw.members[0]? ∧
    (0 = data_size_sum (scenario_uniform_raw.members.drop (2 + 1)) % UINT64_MOD) ∧
    (∃ m : lzip_index_member,
      (finalize_loop (member_count scenario_uniform_raw) 1
        ⟨scenario_uniform_raw.members, 0, 0⟩).members[
          member_count scenario_uniform_raw - 1]? = some m ∧ m.data_offset = 0) :=
  ⟨by decide,
    (finalize_loop_processes_from_end scenario_uniform_raw 1 (by decide)).2.1 0 (by decide),
    (finalize_loop_processes_from_end scenario_uniform_raw 1 (by decide)).2.2.1 2
      ⟨0, 100, 0, 120⟩ (by decide) (by decide),
    (finalize_loop_processes_from_end scenario_uniform_raw 1 (by decide)).2.2.2 (by decide)⟩

/-- Counterexample to C18 as stated: in the two-member scenario the stride is
50 and the record at stored position 0 has `data_size = 200`, larger than the
stride. -/
theorem exempt_record_larger_than_stride :
    scenario_two_members.indexable_data_size = 50 ∧
    scenario_two_members.indexable_data_size ≠ 0 ∧
    (∃ m, scenario_two_members.members[0]? = some m ∧ m.data_size = 200 ∧
      ¬ (m.data_size ≤ scenario_two_members.indexable_data_size)) := by
  decide

/-- Claim C18, amended: the record stored at `members[0]` is exempt from the
uniform-size rule without any bound on its size: in an index with at least two
records `indexable_data_size` after `lzip_index_finalize` is the same whatever
record is stored at position 0, so that record may be smaller than, equal to
or larger than the stride. -/
theorem finalize_indexable_ignores_position_zero (index other : lzip_index)
    (first replaced : lzip_index_member) (rest : List lzip_index_member)
    (hrest : rest ≠ [])
    (hindex : index.members = first :: rest)
    (hother : other.members = replaced :: rest) :
    (lzip_index_finalize other).indexable_data_size =
      (lzip_index_finalize index).indexable_data_size := by
  rw [lzip_index_finalize_eq, lzip_index_finalize_eq, hindex, hother]
  simp only [List.tail_cons]
  rw [last_data_size_cons first rest hrest, last_data_size_cons replaced rest hrest]

/-- Witness for the amended C18: replacing the record of size 50 at stored
position 0 of the index with file order `100, 100, 50` by a record of size 700
leaves the stride unchanged. -/
theorem finalize_indexable_ignores_position_zero_witness :
    [scanned_member (100, 100, 100), scanned_member (100, 0, 100)] ≠ [] ∧
    (lzip_index_finalize ⟨0, 0, [scanned_member (700, 200, 720),
        scanned_member (100, 100, 100), scanned_member (100, 0, 100)]⟩).indexable_data_size =
      (lzip_index_finalize ⟨0, 0, [scanned_member (50, 200, 70),
        scanned_member (100, 100, 100), scanned_member (100, 0, 100)]⟩).indexable_data_size :=
  ⟨by decide,
    finalize_indexable_ignores_position_zero
      ⟨0, 0, [scanned_member (50, 200, 70), scanned_member (100, 100, 100),
        scanned_member (100, 0, 100)]⟩
      ⟨0, 0, [scanned_member (700, 200, 720), scanned_member (100, 100, 100),
        scanned_member (100, 0, 100)]⟩
      (scanned_member (50, 200, 70)) (scanned_member (700, 200, 720))
      [scanned_member (100, 100, 100), scanned_member (100, 0, 100)]
      (by decide) rfl rfl⟩

/-- Counterexample to C19 as stated: in the index with file order `0, 5`, built
by prepending and finalized, the records at stored positions 0 and 1 both have
`data_offset = 0`, so the offset at position 0 is not greater than the one at
position 1. -/
theorem offsets_not_strictly_increasing :
    data_size_sum scenario_empty_head.members < UINT64_MOD ∧
    0 < member_count scenario_empty_head - 1 ∧
    scenario_empty_head.members[0]? = some ⟨0, 5, 36, 41⟩ ∧
    scenario_empty_head.members[0 + 1]? = some ⟨0, 0, 0, 36⟩ ∧
    ¬ ((⟨0, 5, 36, 41⟩ : lzip_index_member).data_offset >
      (⟨0, 0, 0, 36⟩ : lzip_index_member).data_offset) := by
  decide

/-- Claim C19, amended: in every index built by prepending and finalized, with
sizes that sum to less than `2^64`, the record at stored position
`member_count - 1` has `data_offset` zero and the offsets read from position
`member_count - 1` down to 0 never decrease:
`members[i].data_offset >= members[i+1].data_offset`, with strict inequality
exactly when `members[i+1].data_size` is not zero. -/
theorem build_index_offsets_monotone (ms : List lzip_index_member)
    (hsum : data_size_sum ms < UINT64_MOD) :
    (∀ m : lzip_index_member,
      (build_index ms).members[member_count (build_index ms) - 1]? = some m →
      m.data_offset = 0) ∧
    (∀ (i : Nat) (a b : lzip_index_member),
      (build_index ms).members[i]? = some a →
      (build_index ms).members[i + 1]? = some b →
      a.data_offset ≥ b.data_offset ∧
      (a.data_offset > b.data_offset ↔ 0 < b.data_size)) := by
  have hmem : (prepend_all empty_index ms).members = ms := by
    rw [prepend_all_members]; rfl
  have hsum2 : data_size_sum (prepend_all empty_index ms).members < UINT64_MOD := by
    rw [hmem]; exact hsum
  unfold build_index
  refine ⟨?_, ?_⟩
  · intro m hm
    obtain ⟨hlt, hoff, _⟩ := finalize_member_range _ hsum2 _ m hm
    rw [finalize_member_count] at hoff
    unfold member_count at hoff
    have hnil : (prepend_all empty_index ms).members.drop
        ((prepend_all empty_index ms).members.length - 1 + 1) = [] :=
      List.drop_eq_nil_of_le (by omega)
    rw [hnil] at hoff
    exact hoff
  · intro i a b ha hb
    have h := finalize_adjacent _ hsum2 i a b ha hb
    exact ⟨by omega, by omega⟩

/-- Witness for the amended C19 on the three-member scenario: the offsets at
stored positions 0 and 1 are 200 and 100, and the record at position 2 has
offset zero. -/
theorem build_index_offsets_monotone_witness :
    data_size_sum scenario_uniform_records < UINT64_MOD ∧
    (build_index scenario_uniform_records).members[
      member_count (build_index scenario_uniform_records) - 1]? = some ⟨0, 100, 0, 120⟩ ∧
    (build_index scenario_uniform_records).members[0]? = some ⟨200, 100, 5000, 120⟩ ∧
    (build_index scenario_uniform_records).members[0 + 1]? = some ⟨100, 100, 3000, 120⟩ ∧
    (⟨0, 100, 0, 120⟩ : lzip_index_member).data_offset = 0 ∧
    ((⟨200, 100, 5000, 120⟩ : lzip_index_member).data_offset ≥
        (⟨100, 100, 3000, 120⟩ : lzip_index_member).data_offset ∧
      ((⟨200, 100, 5000, 120⟩ : lzip_index_member).data_offset >
          (⟨100, 100, 3000, 120⟩ : lzip_index_member).data_offset ↔
        0 < (⟨100, 100, 3000, 120⟩ : lzip_index_member).data_size)) :=
  ⟨by decide, by decide, by decide, by decide,
    (build_index_offsets_monotone scenario_uniform_records (by decide)).1
      ⟨0, 100, 0, 120⟩ (by decide),
    (build_index_offsets_monotone scenario_uniform_records (by decide)).2 0
      ⟨200, 100, 5000, 120⟩ ⟨100, 100, 3000, 120⟩ (by decide) (by decide)⟩

/-- Claim C20, evaluated.  In the three-member scenario (stride 100) the search
at offset 0 computes the stored position `member_count - 0 = 3`, which is not
below `member_count = 3`.  In the two-member scenario (stride 50, combined size
250) the search at offset 250 computes `member_index = 5`, larger than
`member_count = 2`, and the `size_t` subtraction wraps to `2^64 - 3`. -/
theorem search_constant_time_position_outside :
    scenario_uniform.indexable_data_size ≠ 0 ∧
    0 ≤ scenario_uniform.combined_data_size ∧
    member_count scenario_uniform = 3 ∧
    lzip_index_search (some scenario_uniform) 0 = some 3 ∧
    ¬ (3 < member_count scenario_uniform) ∧
    scenario_two_members.indexable_data_size ≠ 0 ∧
    250 ≤ scenario_two_members.combined_data_size ∧
    ¬ (250 / scenario_two_members.indexable_data_size ≤ member_count scenario_two_members) ∧
    lzip_index_search (some scenario_two_members) 250 = some (UINT64_MOD - 3) ∧
    ¬ (UINT64_MOD - 3 < member_count scenario_two_members) := by
  decide

end LzipIndex
